import Mathlib

/-!
Verification development for the `esper` ECS `World` (src/esper/world.py).

Shallow embedding conventions:
* Component types are identified by `Nat` tags; a component instance is a
  record carrying its type tag (`cty`, standing for Python's
  `type(component_instance)`) and an opaque payload (`val`).
* Python `dict`s are embedded as association lists in insertion order
  (`dlookup` / `dinsert` / `derase` mirror indexing, `d[k] = v` and
  `del d[k]`); Python `set`s of entity ids are embedded as `Finset Nat`.
  Where the code iterates over a set (whose order Python leaves
  unspecified) the embedding iterates in ascending numeric order.
* Operations that can raise an uncaught Python exception are embedded
  with an error case (`Except` result, or a `World × Option String`
  result when the claim needs the partially mutated state alongside the
  signalled error); operations whose exceptions are all caught in the
  source are total.
* A `Processor` instance is embedded as `Proc` with an identity tag
  (`pid`), a runtime-type tag (`pty`, standing for `type(processor)`)
  and its `priority` field.  The mutable `world` back-reference the code
  stores on processors is not modelled: no claim concerns it, and its
  only use is being set on add and cleared on remove.  `process()` is
  embedded as the list of processor identities in invocation order.
-/

/-- A Python component instance: `cty` is its runtime type
(`type(component_instance)`), `val` an opaque payload. -/
structure Component where
  cty : Nat
  val : Nat
deriving DecidableEq

/-- A Python processor instance: `pid` its object identity, `pty` its
runtime type (`type(processor)`), `priority` its priority field. -/
structure Proc where
  pid : Nat
  pty : Nat
  priority : Int
deriving DecidableEq

/-- Association-list lookup: Python `d[k]` / `d.get(k)`. -/
def dlookup {α : Type} (k : Nat) : List (Nat × α) → Option α
  | [] => none
  | (k', v) :: rest => if k = k' then some v else dlookup k rest

/-- Association-list insert/update: Python `d[k] = v` (updates in place
when the key exists, appends otherwise — dicts keep insertion order). -/
def dinsert {α : Type} (k : Nat) (v : α) : List (Nat × α) → List (Nat × α)
  | [] => [(k, v)]
  | (k', v') :: rest => if k = k' then (k, v) :: rest else (k', v') :: dinsert k v rest

/-- Association-list key removal: Python `del d[k]` (no-op when absent,
which embeds a `del` whose `KeyError` the source catches). -/
def derase {α : Type} (k : Nat) : List (Nat × α) → List (Nat × α)
  | [] => []
  | (k', v') :: rest => if k = k' then rest else (k', v') :: derase k rest

/-- The keys of an association list are distinct (always true of a
Python dict). -/
def NodupKeys {α : Type} (l : List (Nat × α)) : Prop :=
  (l.map Prod.fst).Nodup

/-- The `World` state: `processors` is `self._processors`,
`next_entity_id` is `self._next_entity_id`, `components` is
`self._components` (component type → set of entities), `entities` is
`self._entities` (entity → (component type → component instance)). -/
structure World where
  processors : List Proc
  next_entity_id : Nat
  components : List (Nat × Finset Nat)
  entities : List (Nat × List (Nat × Component))
deriving DecidableEq

/-- `World.__init__`. -/
def World.init : World := ⟨[], 0, [], []⟩

/-- `World.clear_database`. -/
def clear_database (w : World) : World :=
  { w with components := [], entities := [], next_entity_id := 0 }

/-- Stable insertion of a processor behind every element of at least its
priority (the position Python's stable `list.sort(key=-priority)` gives
the newly appended element when the rest of the list is already
sorted). -/
def insertDesc (a : Proc) : List Proc → List Proc
  | [] => [a]
  | b :: rest => if b.priority < a.priority then a :: b :: rest else b :: insertDesc a rest

/-- Python's `list.sort(key=lambda processor: -processor.priority)`:
a stable sort into descending priority order. -/
def stableSortDesc (l : List Proc) : List Proc :=
  l.foldl (fun acc a => insertDesc a acc) []

/-- `World.add_processor`: sets the instance's priority field, appends
it, and stably re-sorts the list by descending priority. -/
def add_processor (w : World) (inst : Proc) (priority : Int) : World :=
  let p : Proc := { inst with priority := priority }
  { w with processors := stableSortDesc (w.processors ++ [p]) }

/-- `list.remove(x)`: removes the first occurrence of `x`. -/
def list_remove (x : Proc) : List Proc → List Proc
  | [] => []
  | y :: rest => if y = x then rest else y :: list_remove x rest

theorem list_remove_length {x : Proc} : ∀ {l : List Proc}, x ∈ l →
    (list_remove x l).length + 1 = l.length := by
  intro l hx
  induction l with
  | nil => cases hx
  | cons y rest ih =>
    by_cases hyx : y = x
    · simp [list_remove, hyx]
    · rcases List.mem_cons.mp hx with h | h
      · exact absurd h.symm hyx
      · simp [list_remove, hyx, ih h]

/-- The body of `World.remove_processor`: Python's
`for processor in self._processors: if type(processor) == processor_type:
processor.world = None; self._processors.remove(processor)`.
A `for` over a list the loop mutates advances an index `i` into the
live list; `list.remove` shifts later elements down, so the element
after a removed one is skipped.  (The `processor.world = None`
assignment touches only the unmodelled back-reference.) -/
def remove_loop (t : Nat) (l : List Proc) (i : Nat) : List Proc :=
  if h : i < l.length then
    let x := l.get ⟨i, h⟩
    if x.pty = t then
      remove_loop t (list_remove x l) (i + 1)
    else
      remove_loop t l (i + 1)
  else l
termination_by l.length - i
decreasing_by
  · have hx : l.get ⟨i, h⟩ ∈ l := List.get_mem l i h
    have := list_remove_length hx
    omega
  · omega

/-- `World.remove_processor`. -/
def remove_processor (w : World) (t : Nat) : World :=
  { w with processors := remove_loop t w.processors 0 }

/-- `World.create_entity`: bumps the counter and returns the new id. -/
def create_entity (w : World) : World × Nat :=
  ({ w with next_entity_id := w.next_entity_id + 1 }, w.next_entity_id + 1)

/-- `World.add_component`: derives the component type from the value,
inserts the entity into that type's set (creating it if absent), and
stores the instance under the entity (creating its mapping if absent). -/
def add_component (w : World) (entity : Nat) (c : Component) : World :=
  let ct := c.cty
  let comps :=
    match dlookup ct w.components with
    | none => dinsert ct {entity} w.components
    | some s => dinsert ct (insert entity s) w.components
  let inner := (dlookup entity w.entities).getD []
  { w with components := comps,
           entities := dinsert entity (dinsert ct c inner) w.entities }

/-- `World.delete_component`: two independent `try`/`except KeyError`
blocks; the first discards the entity from the type's set and prunes it
if emptied, the second deletes the instance from the entity's mapping
and prunes it if emptied (when the inner `del` raises, the pruning
check is skipped). -/
def delete_component (w : World) (entity : Nat) (ct : Nat) : World :=
  let comps :=
    match dlookup ct w.components with
    | none => w.components
    | some s =>
      let s' := s.erase entity
      if s' = ∅ then derase ct w.components else dinsert ct s' w.components
  let ents :=
    match dlookup entity w.entities with
    | none => w.entities
    | some inner =>
      match dlookup ct inner with
      | none => w.entities
      | some _ =>
        let inner' := derase ct inner
        if inner' = [] then derase entity w.entities
        else dinsert entity inner' w.entities
  { w with components := comps, entities := ents }

/-- The loop of `World.delete_entity`: for each component type attached
to the entity, `self._components[component_type].discard(entity)` (an
uncaught `KeyError` when the type is no key of `_components`) followed
by pruning of an emptied set.  Returns the components map as mutated so
far together with the error, if one was raised. -/
def del_entity_loop (entity : Nat) :
    List (Nat × Component) → List (Nat × Finset Nat) →
    List (Nat × Finset Nat) × Option String
  | [], comps => (comps, none)
  | (ct, _) :: rest, comps =>
    match dlookup ct comps with
    | none => (comps, some "KeyError")
    | some s =>
      let s' := s.erase entity
      del_entity_loop entity rest
        (if s' = ∅ then derase ct comps else dinsert ct s' comps)

/-- `World.delete_entity`: iterates `self._entities.get(entity, [])`
discarding the entity from every attached type's set (pruning empties),
then `del self._entities[entity]` inside `try`/`except KeyError`.
The second result component is the uncaught exception, if any; the
first is the state after the mutations performed up to that point. -/
def delete_entity (w : World) (entity : Nat) : World × Option String :=
  let inner := (dlookup entity w.entities).getD []
  let r := del_entity_loop entity inner w.components
  match r.2 with
  | some e => ({ w with components := r.1 }, some e)
  | none => ({ w with components := r.1, entities := derase entity w.entities }, none)

/-- `World.component_for_entity`: `self._entities[entity][component_type]`
inside `try`/`except KeyError`, returning `None` on absence. -/
def component_for_entity (w : World) (entity : Nat) (ct : Nat) : Option Component :=
  match dlookup entity w.entities with
  | none => none
  | some inner => dlookup ct inner

/-- The yield loop of `World.get_component`: for each entity of the
type's set, `yield entity, entitydb[entity][component_type]` (both
indexings are uncaught `KeyError`s on absence). -/
def gc_loop (ents : List (Nat × List (Nat × Component))) (ct : Nat) :
    List Nat → Except String (List (Nat × Component))
  | [] => Except.ok []
  | e :: rest =>
    match dlookup e ents with
    | none => Except.error "KeyError"
    | some inner =>
      match dlookup ct inner with
      | none => Except.error "KeyError"
      | some c =>
        match gc_loop ents ct rest with
        | Except.error msg => Except.error msg
        | Except.ok r => Except.ok ((e, c) :: r)

/-- `World.get_component`: iterates `self._components.get(type, [])`
(the empty sequence when the type is unknown); the result is the list
of pairs the fully consumed generator yields. -/
def get_component (w : World) (ct : Nat) : Except String (List (Nat × Component)) :=
  gc_loop w.entities ct (((dlookup ct w.components).getD ∅).sort (· ≤ ·))

/-- The intersection loop of `World.get_components`: `entities` aliases
`self._components[component_types[0]]`, and each
`entities &= self._components[component_type]` both rebinds the loop
variable and shrinks that stored set in place — embedded by writing the
intersection back under the first type's key at every step.  A type
absent from the live map raises an uncaught `KeyError`. -/
def gcs_inter (c0 : Nat) :
    List Nat → List (Nat × Finset Nat) → Finset Nat →
    Except String (List (Nat × Finset Nat) × Finset Nat)
  | [], comps, s => Except.ok (comps, s)
  | ct :: rest, comps, s =>
    match dlookup ct comps with
    | none => Except.error "KeyError"
    | some t => gcs_inter c0 rest (dinsert c0 (s ∩ t) comps) (s ∩ t)

/-- The yield loop of `World.get_components`: for each entity of the
(mutated) intersection set, `components = entitydb[entity]` (uncaught
`KeyError` on absence) and
`yield entity, [components[ct] for ct in component_types if ct in components]`. -/
def gcs_yield (ents : List (Nat × List (Nat × Component))) (ctys : List Nat) :
    List Nat → Except String (List (Nat × List Component))
  | [] => Except.ok []
  | e :: rest =>
    match dlookup e ents with
    | none => Except.error "KeyError"
    | some inner =>
      match gcs_yield ents ctys rest with
      | Except.error msg => Except.error msg
      | Except.ok r =>
        Except.ok ((e, ctys.filterMap (fun ct => dlookup ct inner)) :: r)

/-- `World.get_components`: `self._components[component_types[0]]` is an
`IndexError` on an empty type list and a `KeyError` on an unknown first
type; then the intersection loop and the yield loop.  On success the
result carries the world as mutated by the in-place intersections
together with the list the fully consumed generator yields. -/
def get_components (w : World) (ctys : List Nat) :
    Except String (World × List (Nat × List Component)) :=
  match ctys with
  | [] => Except.error "IndexError"
  | c0 :: rest =>
    match dlookup c0 w.components with
    | none => Except.error "KeyError"
    | some s0 =>
      match gcs_inter c0 rest w.components s0 with
      | Except.error msg => Except.error msg
      | Except.ok (comps', s) =>
        match gcs_yield w.entities (c0 :: rest) (s.sort (· ≤ ·)) with
        | Except.error msg => Except.error msg
        | Except.ok res => Except.ok ({ w with components := comps' }, res)

/-- `World.process`: invokes each processor's `process()` callback in
list order; embedded as the identities in invocation order. -/
def process (w : World) : List Nat :=
  w.processors.map Proc.pid

/-- `type_entities[T]` read as a set (empty when the key is absent). -/
def tyEnts (w : World) (T : Nat) : Finset Nat :=
  (dlookup T w.components).getD ∅

/-- `entity_components[e]` read as a mapping (empty when absent). -/
def entComps (w : World) (e : Nat) : List (Nat × Component) :=
  (dlookup e w.entities).getD []

/-- Invariant I1: `e ∈ type_entities[T]` iff `entity_components[e]` has
an entry for `T`. -/
def I1 (w : World) : Prop :=
  ∀ e T : Nat, e ∈ tyEnts w T ↔ (dlookup T (entComps w e)).isSome

/-- Invariant I2: no empty entity set persists in `_components` and no
empty inner mapping persists in `_entities`. -/
def I2 (w : World) : Prop :=
  (∀ T s, dlookup T w.components = some s → s ≠ ∅) ∧
  (∀ e inner, dlookup e w.entities = some inner → inner ≠ [])

/-- Well-formedness of the dictionary representation: distinct keys at
every level (automatic for Python dicts). -/
def WF (w : World) : Prop :=
  NodupKeys w.components ∧ NodupKeys w.entities ∧
  ∀ e inner, dlookup e w.entities = some inner → NodupKeys inner

/-- The conjunction of the representation and data-model invariants. -/
def WInv (w : World) : Prop := WF w ∧ I1 w ∧ I2 w

/-- One application of a mutating `World` operation. -/
inductive Step : World → World → Prop where
  | create (w : World) : Step w (create_entity w).1
  | addC (w : World) (e : Nat) (c : Component) : Step w (add_component w e c)
  | delC (w : World) (e ct : Nat) : Step w (delete_component w e ct)
  | delE (w : World) (e : Nat) : Step w (delete_entity w e).1
  | clear (w : World) : Step w (clear_database w)

/-- World states reachable from a fresh `World()` by the mutating
operations. -/
inductive Reachable : World → Prop where
  | init : Reachable World.init
  | step {w w' : World} : Reachable w → Step w w' → Reachable w'

example : (create_entity World.init).2 = 1 := rfl

example :
    let w := add_component (create_entity World.init).1 1 ⟨5, 0⟩
    dlookup 5 w.components = some {1} := by decide

example : get_components World.init [] = Except.error "IndexError" := rfl

/-! ### Association-list lemmas -/

theorem dlookup_dinsert_self {α : Type} (k : Nat) (v : α) :
    ∀ l : List (Nat × α), dlookup k (dinsert k v l) = some v := by
  intro l
  induction l with
  | nil => simp [dinsert, dlookup]
  | cons p rest ih =>
    by_cases h : k = p.1
    · simp [dinsert, h, dlookup]
    · simp [dinsert, h, dlookup, ih]

theorem dlookup_dinsert_ne {α : Type} {k k' : Nat} (v : α) (hne : k' ≠ k) :
    ∀ l : List (Nat × α), dlookup k' (dinsert k v l) = dlookup k' l := by
  intro l
  induction l with
  | nil => simp [dinsert, dlookup, hne]
  | cons p rest ih =>
    by_cases h : k = p.1
    · subst h
      simp [dinsert, dlookup, hne]
    · by_cases h' : k' = p.1
      · simp [dinsert, h, dlookup, h']
      · simp [dinsert, h, dlookup, h', ih]

theorem dlookup_derase_ne {α : Type} {k k' : Nat} (hne : k' ≠ k) :
    ∀ l : List (Nat × α), dlookup k' (derase k l) = dlookup k' l := by
  intro l
  induction l with
  | nil => simp [derase]
  | cons p rest ih =>
    by_cases h : k = p.1
    · subst h
      simp [derase, dlookup, hne]
    · by_cases h' : k' = p.1
      · simp [derase, h, dlookup, h']
      · simp [derase, h, dlookup, h', ih]

theorem mem_keys_of_dlookup {α : Type} {k : Nat} {v : α} :
    ∀ {l : List (Nat × α)}, dlookup k l = some v → k ∈ l.map Prod.fst := by
  intro l
  induction l with
  | nil => intro h; simp [dlookup] at h
  | cons p rest ih =>
    intro h
    by_cases hk : k = p.1
    · simp [hk]
    · simp [dlookup, hk] at h
      simp [ih h]

theorem dlookup_eq_none_of_not_mem_keys {α : Type} {k : Nat} :
    ∀ {l : List (Nat × α)}, k ∉ l.map Prod.fst → dlookup k l = none := by
  intro l
  induction l with
  | nil => intro _; rfl
  | cons p rest ih =>
    intro h
    have h1 : ¬ k = p.1 := by
      intro he
      exact h (by simp [he])
    have h2 : k ∉ rest.map Prod.fst := by
      intro hm
      exact h (by simp [hm])
    simp [dlookup, h1, ih h2]

theorem dlookup_derase_self {α : Type} {k : Nat} :
    ∀ {l : List (Nat × α)}, NodupKeys l → dlookup k (derase k l) = none := by
  intro l
  induction l with
  | nil => intro _; rfl
  | cons p rest ih =>
    intro hnd
    have hnd' : NodupKeys rest := (List.nodup_cons.mp hnd).2
    by_cases h : k = p.1
    · subst h
      simp only [derase, if_pos rfl]
      exact dlookup_eq_none_of_not_mem_keys (List.nodup_cons.mp hnd).1
    · simp [derase, h, dlookup, ih hnd']

theorem keys_dinsert {α : Type} (k : Nat) (v : α) :
    ∀ l : List (Nat × α), (dinsert k v l).map Prod.fst =
      if k ∈ l.map Prod.fst then l.map Prod.fst else l.map Prod.fst ++ [k] := by
  intro l
  induction l with
  | nil => simp [dinsert]
  | cons p rest ih =>
    by_cases h : k = p.1
    · simp [dinsert, h]
    · by_cases hm : k ∈ rest.map Prod.fst
      · simp [dinsert, h, ih, hm, Ne.symm h]
      · simp [dinsert, h, ih, hm, Ne.symm h]

theorem nodup_dinsert {α : Type} (k : Nat) (v : α) {l : List (Nat × α)}
    (hnd : NodupKeys l) : NodupKeys (dinsert k v l) := by
  unfold NodupKeys
  rw [keys_dinsert]
  by_cases hm : k ∈ l.map Prod.fst
  · simpa [hm] using hnd
  · rw [if_neg hm, List.nodup_append]
    refine ⟨hnd, List.nodup_singleton _, ?_⟩
    intro a ha hb
    rw [List.mem_singleton] at hb
    exact hm (hb ▸ ha)

theorem keys_derase_sublist {α : Type} (k : Nat) :
    ∀ l : List (Nat × α), ((derase k l).map Prod.fst).Sublist (l.map Prod.fst) := by
  intro l
  induction l with
  | nil => simp [derase]
  | cons p rest ih =>
    by_cases h : k = p.1
    · simp only [derase, if_pos h, List.map_cons]
      exact List.sublist_cons_self _ _
    · simp only [derase, if_neg h, List.map_cons]
      exact ih.cons₂ _

theorem nodup_derase {α : Type} (k : Nat) {l : List (Nat × α)}
    (hnd : NodupKeys l) : NodupKeys (derase k l) :=
  (keys_derase_sublist k l).nodup hnd

theorem dinsert_self {α : Type} {k : Nat} {v : α} :
    ∀ {l : List (Nat × α)}, dlookup k l = some v → dinsert k v l = l := by
  intro l
  induction l with
  | nil => intro h; simp [dlookup] at h
  | cons p rest ih =>
    intro h
    by_cases hk : k = p.1
    · subst hk
      simp [dlookup] at h
      simp [dinsert, ← h]
    · simp [dlookup, hk] at h
      simp [dinsert, hk, ih h]

theorem dinsert_ne_nil {α : Type} (k : Nat) (v : α) (l : List (Nat × α)) :
    dinsert k v l ≠ [] := by
  cases l with
  | nil => simp [dinsert]
  | cons p rest =>
    by_cases h : k = p.1 <;> simp [dinsert, h]

theorem dlookup_isSome_of_mem_keys {α : Type} {k : Nat} :
    ∀ {l : List (Nat × α)}, k ∈ l.map Prod.fst → (dlookup k l).isSome := by
  intro l
  induction l with
  | nil => intro h; simp at h
  | cons p rest ih =>
    intro h
    by_cases hk : k = p.1
    · simp [dlookup, hk]
    · rcases List.mem_cons.mp h with h' | h'
      · exact absurd h' hk
      · simp [dlookup, hk, ih h']

theorem mem_keys_iff_isSome {α : Type} {k : Nat} {l : List (Nat × α)} :
    k ∈ l.map Prod.fst ↔ (dlookup k l).isSome := by
  constructor
  · exact dlookup_isSome_of_mem_keys
  · intro h
    match hl : dlookup k l with
    | none => rw [hl] at h; simp at h
    | some v => exact mem_keys_of_dlookup hl

theorem dlookup_of_derase_eq_nil {α : Type} {k k' : Nat} (hne : k' ≠ k) :
    ∀ {l : List (Nat × α)}, derase k l = [] → dlookup k' l = none := by
  intro l
  cases l with
  | nil => intro _; rfl
  | cons p rest =>
    intro h
    by_cases hk : k = p.1
    · simp only [derase, if_pos hk] at h
      subst h
      simp [dlookup, hk ▸ hne]
    · simp [derase, hk] at h

/-! ### Invariant preservation -/

theorem components_add_component (w : World) (e : Nat) (c : Component) :
    (add_component w e c).components =
      dinsert c.cty (insert e (tyEnts w c.cty)) w.components := by
  unfold add_component tyEnts
  cases hl : dlookup c.cty w.components with
  | none => simp [hl]
  | some s => simp [hl]

theorem entities_add_component (w : World) (e : Nat) (c : Component) :
    (add_component w e c).entities =
      dinsert e (dinsert c.cty c (entComps w e)) w.entities := by
  unfold add_component entComps
  cases hl : dlookup c.cty w.components with
  | none => simp [hl]
  | some s => simp [hl]

theorem tyEnts_add_component (w : World) (e : Nat) (c : Component) (T : Nat) :
    tyEnts (add_component w e c) T =
      if T = c.cty then insert e (tyEnts w c.cty) else tyEnts w T := by
  unfold tyEnts
  rw [components_add_component]
  by_cases hT : T = c.cty
  · subst hT
    simp [dlookup_dinsert_self, tyEnts]
  · simp [dlookup_dinsert_ne _ hT, hT, tyEnts]

theorem entComps_add_component (w : World) (e : Nat) (c : Component) (x : Nat) :
    entComps (add_component w e c) x =
      if x = e then dinsert c.cty c (entComps w e) else entComps w x := by
  unfold entComps
  rw [entities_add_component]
  by_cases hx : x = e
  · subst hx
    simp [dlookup_dinsert_self, entComps]
  · simp [dlookup_dinsert_ne _ hx, hx, entComps]

theorem winv_add_component {w : World} (hinv : WInv w) (e : Nat) (c : Component) :
    WInv (add_component w e c) := by
  obtain ⟨⟨hndc, hnde, hndi⟩, h1, h2c, h2e⟩ := hinv
  refine ⟨⟨?_, ?_, ?_⟩, ?_, ?_, ?_⟩
  · rw [components_add_component]
    exact nodup_dinsert _ _ hndc
  · rw [entities_add_component]
    exact nodup_dinsert _ _ hnde
  · intro x inner hx
    rw [entities_add_component] at hx
    by_cases hxe : x = e
    · subst hxe
      rw [dlookup_dinsert_self] at hx
      cases hx
      apply nodup_dinsert
      unfold entComps
      cases hl : dlookup x w.entities with
      | none => simp [NodupKeys]
      | some inner0 => simpa using hndi x inner0 hl
    · rw [dlookup_dinsert_ne _ hxe] at hx
      exact hndi x inner hx
  · intro x T
    rw [tyEnts_add_component]
    unfold entComps
    rw [entities_add_component]
    by_cases hxe : x = e
    · subst hxe
      rw [dlookup_dinsert_self]
      simp only [Option.getD_some]
      by_cases hT : T = c.cty
      · subst hT
        rw [if_pos rfl]
        simp [dlookup_dinsert_self]
      · rw [if_neg hT, dlookup_dinsert_ne _ hT]
        have h1x := h1 x T
        unfold entComps at h1x
        exact h1x
    · rw [dlookup_dinsert_ne _ hxe]
      by_cases hT : T = c.cty
      · subst hT
        rw [if_pos rfl, Finset.mem_insert]
        have h1x := h1 x c.cty
        unfold entComps at h1x
        constructor
        · rintro (h | h)
          · exact absurd h hxe
          · exact h1x.mp h
        · intro h
          exact Or.inr (h1x.mpr h)
      · rw [if_neg hT]
        have h1x := h1 x T
        unfold entComps at h1x
        exact h1x
  · intro T s hs
    rw [components_add_component] at hs
    by_cases hT : T = c.cty
    · subst hT
      rw [dlookup_dinsert_self] at hs
      cases hs
      exact Finset.insert_ne_empty _ _
    · rw [dlookup_dinsert_ne _ hT] at hs
      exact h2c T s hs
  · intro x inner hx
    rw [entities_add_component] at hx
    by_cases hxe : x = e
    · subst hxe
      rw [dlookup_dinsert_self] at hx
      cases hx
      exact dinsert_ne_nil _ _ _
    · rw [dlookup_dinsert_ne _ hxe] at hx
      exact h2e x inner hx

theorem components_delete_component (w : World) (e ct : Nat) :
    (delete_component w e ct).components =
      match dlookup ct w.components with
      | none => w.components
      | some s =>
        if s.erase e = ∅ then derase ct w.components
        else dinsert ct (s.erase e) w.components := rfl

theorem entities_delete_component (w : World) (e ct : Nat) :
    (delete_component w e ct).entities =
      match dlookup e w.entities with
      | none => w.entities
      | some inner =>
        match dlookup ct inner with
        | none => w.entities
        | some _ =>
          if derase ct inner = [] then derase e w.entities
          else dinsert e (derase ct inner) w.entities := rfl

theorem components_delC_none {w : World} {e ct : Nat}
    (hl : dlookup ct w.components = none) :
    (delete_component w e ct).components = w.components := by
  rw [components_delete_component, hl]

theorem components_delC_some {w : World} {e ct : Nat} {s : Finset Nat}
    (hl : dlookup ct w.components = some s) :
    (delete_component w e ct).components =
      if s.erase e = ∅ then derase ct w.components
      else dinsert ct (s.erase e) w.components := by
  rw [components_delete_component, hl]

theorem entities_delC_no_entity {w : World} {e ct : Nat}
    (hle : dlookup e w.entities = none) :
    (delete_component w e ct).entities = w.entities := by
  rw [entities_delete_component, hle]

theorem entities_delC_no_type {w : World} {e ct : Nat} {inner : List (Nat × Component)}
    (hle : dlookup e w.entities = some inner) (hlc : dlookup ct inner = none) :
    (delete_component w e ct).entities = w.entities := by
  rw [entities_delete_component, hle]
  simp only [hlc]

theorem entities_delC_some {w : World} {e ct : Nat} {inner : List (Nat × Component)}
    {c0 : Component}
    (hle : dlookup e w.entities = some inner) (hlc : dlookup ct inner = some c0) :
    (delete_component w e ct).entities =
      if derase ct inner = [] then derase e w.entities
      else dinsert e (derase ct inner) w.entities := by
  rw [entities_delete_component, hle]
  simp only [hlc]

theorem mem_tyEnts_delete_component {w : World} (hndc : NodupKeys w.components)
    (e ct x T : Nat) :
    x ∈ tyEnts (delete_component w e ct) T ↔
      (x ∈ tyEnts w T ∧ ¬(T = ct ∧ x = e)) := by
  unfold tyEnts
  cases hl : dlookup ct w.components with
  | none =>
    rw [components_delC_none hl]
    by_cases hT : T = ct
    · subst hT
      simp [hl]
    · simp [hT]
  | some s =>
    rw [components_delC_some hl]
    by_cases hs : s.erase e = ∅
    · rw [if_pos hs]
      by_cases hT : T = ct
      · subst hT
        rw [dlookup_derase_self hndc]
        simp only [Option.getD_none, Finset.not_mem_empty, false_iff, hl,
          Option.getD_some]
        intro h
        have hxe : x ≠ e := fun he => (h.2 ⟨by trivial, he⟩)
        have hxs : x ∈ s.erase e := Finset.mem_erase.mpr ⟨hxe, h.1⟩
        rw [hs] at hxs
        exact Finset.not_mem_empty x hxs
      · rw [dlookup_derase_ne hT]
        simp [hT]
    · rw [if_neg hs]
      by_cases hT : T = ct
      · subst hT
        rw [dlookup_dinsert_self]
        simp only [Option.getD_some, Finset.mem_erase, hl]
        constructor
        · intro h
          exact ⟨h.2, fun hc => h.1 hc.2⟩
        · intro h
          exact ⟨fun he => h.2 ⟨by trivial, he⟩, h.1⟩
      · rw [dlookup_dinsert_ne _ hT]
        simp [hT]

theorem entComps_delete_component_isSome {w : World} (hwf : WF w) (e ct x T : Nat) :
    (dlookup T (entComps (delete_component w e ct) x)).isSome ↔
      ((dlookup T (entComps w x)).isSome ∧ ¬(T = ct ∧ x = e)) := by
  obtain ⟨hndc, hnde, hndi⟩ := hwf
  unfold entComps
  by_cases hxe : x = e
  · subst hxe
    cases hle : dlookup x w.entities with
    | none =>
      rw [entities_delC_no_entity hle]
      simp [hle, dlookup]
    | some inner =>
      have hndin : NodupKeys inner := hndi x inner hle
      cases hlc : dlookup ct inner with
      | none =>
        rw [entities_delC_no_type hle hlc]
        by_cases hT : T = ct
        · subst hT
          simp [hle, hlc]
        · simp [hle, hT]
      | some c0 =>
        rw [entities_delC_some hle hlc]
        by_cases hnil : derase ct inner = []
        · rw [if_pos hnil, dlookup_derase_self hnde]
          simp only [Option.getD_none]
          by_cases hT : T = ct
          · subst hT
            simp [hle, hlc, dlookup]
          · have hTnone := dlookup_of_derase_eq_nil hT hnil
            simp [hle, hTnone, dlookup]
        · rw [if_neg hnil, dlookup_dinsert_self]
          simp only [Option.getD_some]
          by_cases hT : T = ct
          · subst hT
            rw [dlookup_derase_self hndin]
            simp [hle, hlc]
          · rw [dlookup_derase_ne hT]
            simp [hle, hT]
  · cases hle : dlookup e w.entities with
    | none =>
      rw [entities_delC_no_entity hle]
      simp [hxe]
    | some inner =>
      cases hlc : dlookup ct inner with
      | none =>
        rw [entities_delC_no_type hle hlc]
        simp [hxe]
      | some c0 =>
        rw [entities_delC_some hle hlc]
        by_cases hnil : derase ct inner = []
        · rw [if_pos hnil, dlookup_derase_ne hxe]
          simp [hxe]
        · rw [if_neg hnil, dlookup_dinsert_ne _ hxe]
          simp [hxe]

theorem winv_delete_component {w : World} (hinv : WInv w) (e ct : Nat) :
    WInv (delete_component w e ct) := by
  obtain ⟨⟨hndc, hnde, hndi⟩, h1, h2c, h2e⟩ := hinv
  have hwf : WF w := ⟨hndc, hnde, hndi⟩
  refine ⟨⟨?_, ?_, ?_⟩, ?_, ?_, ?_⟩
  · cases hl : dlookup ct w.components with
    | none =>
      rw [components_delC_none hl]
      exact hndc
    | some s =>
      rw [components_delC_some hl]
      by_cases hs : s.erase e = ∅
      · rw [if_pos hs]
        exact nodup_derase _ hndc
      · rw [if_neg hs]
        exact nodup_dinsert _ _ hndc
  · cases hle : dlookup e w.entities with
    | none =>
      rw [entities_delC_no_entity hle]
      exact hnde
    | some inner =>
      cases hlc : dlookup ct inner with
      | none =>
        rw [entities_delC_no_type hle hlc]
        exact hnde
      | some c0 =>
        rw [entities_delC_some hle hlc]
        by_cases hnil : derase ct inner = []
        · rw [if_pos hnil]
          exact nodup_derase _ hnde
        · rw [if_neg hnil]
          exact nodup_dinsert _ _ hnde
  · intro x inner' hx
    cases hle : dlookup e w.entities with
    | none =>
      rw [entities_delC_no_entity hle] at hx
      exact hndi x inner' hx
    | some inner =>
      cases hlc : dlookup ct inner with
      | none =>
        rw [entities_delC_no_type hle hlc] at hx
        exact hndi x inner' hx
      | some c0 =>
        rw [entities_delC_some hle hlc] at hx
        by_cases hnil : derase ct inner = []
        · rw [if_pos hnil] at hx
          by_cases hxe : x = e
          · subst hxe
            rw [dlookup_derase_self hnde] at hx
            cases hx
          · rw [dlookup_derase_ne hxe] at hx
            exact hndi x inner' hx
        · rw [if_neg hnil] at hx
          by_cases hxe : x = e
          · subst hxe
            rw [dlookup_dinsert_self] at hx
            cases hx
            exact nodup_derase _ (hndi x inner hle)
          · rw [dlookup_dinsert_ne _ hxe] at hx
            exact hndi x inner' hx
  · intro x T
    rw [mem_tyEnts_delete_component hndc e ct x T,
        entComps_delete_component_isSome hwf e ct x T, h1 x T]
  · intro T s hs
    cases hl : dlookup ct w.components with
    | none =>
      rw [components_delC_none hl] at hs
      exact h2c T s hs
    | some s0 =>
      rw [components_delC_some hl] at hs
      by_cases hse : s0.erase e = ∅
      · rw [if_pos hse] at hs
        by_cases hT : T = ct
        · subst hT
          rw [dlookup_derase_self hndc] at hs
          cases hs
        · rw [dlookup_derase_ne hT] at hs
          exact h2c T s hs
      · rw [if_neg hse] at hs
        by_cases hT : T = ct
        · subst hT
          rw [dlookup_dinsert_self] at hs
          cases hs
          exact hse
        · rw [dlookup_dinsert_ne _ hT] at hs
          exact h2c T s hs
  · intro x inner' hx
    cases hle : dlookup e w.entities with
    | none =>
      rw [entities_delC_no_entity hle] at hx
      exact h2e x inner' hx
    | some inner =>
      cases hlc : dlookup ct inner with
      | none =>
        rw [entities_delC_no_type hle hlc] at hx
        exact h2e x inner' hx
      | some c0 =>
        rw [entities_delC_some hle hlc] at hx
        by_cases hnil : derase ct inner = []
        · rw [if_pos hnil] at hx
          by_cases hxe : x = e
          · subst hxe
            rw [dlookup_derase_self hnde] at hx
            cases hx
          · rw [dlookup_derase_ne hxe] at hx
            exact h2e x inner' hx
        · rw [if_neg hnil] at hx
          by_cases hxe : x = e
          · subst hxe
            rw [dlookup_dinsert_self] at hx
            cases hx
            exact hnil
          · rw [dlookup_dinsert_ne _ hxe] at hx
            exact h2e x inner' hx

theorem del_entity_loop_spec (e : Nat) :
    ∀ (inner : List (Nat × Component)) (comps : List (Nat × Finset Nat)),
      NodupKeys comps → NodupKeys inner →
      (∀ ct ∈ inner.map Prod.fst, ∃ s, dlookup ct comps = some s ∧ e ∈ s) →
      ∃ comps', del_entity_loop e inner comps = (comps', none) ∧ NodupKeys comps' ∧
        ∀ T, dlookup T comps' =
          if T ∈ inner.map Prod.fst then
            match dlookup T comps with
            | none => none
            | some s => if s.erase e = ∅ then none else some (s.erase e)
          else dlookup T comps := by
  intro inner
  induction inner with
  | nil =>
    intro comps hndc _ _
    exact ⟨comps, rfl, hndc, by intro T; simp⟩
  | cons p rest ih =>
    obtain ⟨ct, c⟩ := p
    intro comps hndc hndin hmem
    have h0 := List.nodup_cons.mp hndin
    have hct_notin : ct ∉ rest.map Prod.fst := h0.1
    obtain ⟨s, hls, hes⟩ := hmem ct (by simp)
    by_cases hse : s.erase e = ∅
    · have hnd1 : NodupKeys (derase ct comps) := nodup_derase _ hndc
      have hmem1 : ∀ ct' ∈ rest.map Prod.fst,
          ∃ s', dlookup ct' (derase ct comps) = some s' ∧ e ∈ s' := by
        intro ct' hm
        have hne : ct' ≠ ct := fun h => hct_notin (h ▸ hm)
        rw [dlookup_derase_ne hne]
        exact hmem ct' (by simp [hm])
      obtain ⟨comps', heq, hnd', hform⟩ := ih (derase ct comps) hnd1 h0.2 hmem1
      refine ⟨comps', ?_, hnd', ?_⟩
      · simp only [del_entity_loop, hls, if_pos hse]
        exact heq
      · intro T
        by_cases hT : T = ct
        · subst hT
          rw [hform T, if_neg hct_notin, dlookup_derase_self hndc]
          simp [hls, hse]
        · rw [hform T, dlookup_derase_ne hT]
          by_cases hTr : T ∈ rest.map Prod.fst
          · rw [if_pos hTr, if_pos (by simp [hTr])]
          · rw [if_neg hTr, if_neg (by simp [hT, hTr])]
    · have hnd1 : NodupKeys (dinsert ct (s.erase e) comps) := nodup_dinsert _ _ hndc
      have hmem1 : ∀ ct' ∈ rest.map Prod.fst,
          ∃ s', dlookup ct' (dinsert ct (s.erase e) comps) = some s' ∧ e ∈ s' := by
        intro ct' hm
        have hne : ct' ≠ ct := fun h => hct_notin (h ▸ hm)
        rw [dlookup_dinsert_ne _ hne]
        exact hmem ct' (by simp [hm])
      obtain ⟨comps', heq, hnd', hform⟩ := ih (dinsert ct (s.erase e) comps) hnd1 h0.2 hmem1
      refine ⟨comps', ?_, hnd', ?_⟩
      · simp only [del_entity_loop, hls, if_neg hse]
        exact heq
      · intro T
        by_cases hT : T = ct
        · subst hT
          rw [hform T, if_neg hct_notin, dlookup_dinsert_self]
          simp [hls, hse]
        · rw [hform T, dlookup_dinsert_ne _ hT]
          by_cases hTr : T ∈ rest.map Prod.fst
          · rw [if_pos hTr, if_pos (by simp [hTr])]
          · rw [if_neg hTr, if_neg (by simp [hT, hTr])]

theorem delete_entity_run {w : World} (hinv : WInv w) (e : Nat) :
    ∃ comps', delete_entity w e =
      ({ w with components := comps', entities := derase e w.entities }, none) ∧
      NodupKeys comps' ∧
      ∀ T, dlookup T comps' =
        if T ∈ (entComps w e).map Prod.fst then
          match dlookup T w.components with
          | none => none
          | some s => if s.erase e = ∅ then none else some (s.erase e)
        else dlookup T w.components := by
  obtain ⟨⟨hndc, hnde, hndi⟩, h1, h2c, h2e⟩ := hinv
  have hndin : NodupKeys (entComps w e) := by
    unfold entComps
    cases hle : dlookup e w.entities with
    | none => simp [NodupKeys]
    | some inner => simpa using hndi e inner hle
  have hmem : ∀ ct ∈ (entComps w e).map Prod.fst,
      ∃ s, dlookup ct w.components = some s ∧ e ∈ s := by
    intro ct hm
    have hsome : (dlookup ct (entComps w e)).isSome := dlookup_isSome_of_mem_keys hm
    have hty : e ∈ tyEnts w ct := (h1 e ct).mpr hsome
    unfold tyEnts at hty
    cases hl : dlookup ct w.components with
    | none =>
      rw [hl] at hty
      simp at hty
    | some s =>
      rw [hl] at hty
      exact ⟨s, rfl, by simpa using hty⟩
  obtain ⟨comps', heq, hnd', hform⟩ :=
    del_entity_loop_spec e (entComps w e) w.components hndc hndin hmem
  refine ⟨comps', ?_, hnd', hform⟩
  unfold delete_entity
  rw [show (dlookup e w.entities).getD [] = entComps w e from rfl]
  simp only [heq]

theorem winv_delete_entity {w : World} (hinv : WInv w) (e : Nat) :
    WInv (delete_entity w e).1 := by
  obtain ⟨comps', heq, hnd', hform⟩ := delete_entity_run hinv e
  obtain ⟨⟨hndc, hnde, hndi⟩, h1, h2c, h2e⟩ := hinv
  rw [heq]
  refine ⟨⟨hnd', ?_, ?_⟩, ?_, ?_, ?_⟩
  · exact nodup_derase _ hnde
  · intro x inner' hx
    by_cases hxe : x = e
    · subst hxe
      rw [dlookup_derase_self hnde] at hx
      cases hx
    · rw [dlookup_derase_ne hxe] at hx
      exact hndi x inner' hx
  · intro x T
    show x ∈ (dlookup T comps').getD ∅ ↔
      (dlookup T ((dlookup x (derase e w.entities)).getD [])).isSome
    by_cases hxe : x = e
    · subst hxe
      rw [dlookup_derase_self hnde]
      by_cases hTin : T ∈ (entComps w x).map Prod.fst
      · have hex : ∃ s, dlookup T w.components = some s ∧ x ∈ s := by
          have hsome : (dlookup T (entComps w x)).isSome :=
            dlookup_isSome_of_mem_keys hTin
          have hty : x ∈ tyEnts w T := (h1 x T).mpr hsome
          unfold tyEnts at hty
          cases hl : dlookup T w.components with
          | none => rw [hl] at hty; simp at hty
          | some s => rw [hl] at hty; exact ⟨s, rfl, by simpa using hty⟩
        obtain ⟨s, hls, hxs⟩ := hex
        by_cases hse : s.erase x = ∅
        · have hred : dlookup T comps' = none := by
            rw [hform T, if_pos hTin, hls]
            simp [hse]
          rw [hred]
          simp [dlookup]
        · have hred : dlookup T comps' = some (s.erase x) := by
            rw [hform T, if_pos hTin, hls]
            simp [hse]
          rw [hred]
          simp [dlookup, Finset.mem_erase]
      · have hred : dlookup T comps' = dlookup T w.components := by
          rw [hform T, if_neg hTin]
        rw [hred]
        have hnot : ¬ (dlookup T (entComps w x)).isSome := fun h =>
          hTin (mem_keys_iff_isSome.mpr h)
        have hxnot : x ∉ tyEnts w T := fun h => hnot ((h1 x T).mp h)
        unfold tyEnts at hxnot
        show _ ↔ (dlookup T ([] : List (Nat × Component))).isSome
        simp only [dlookup, Option.isSome_none, Bool.false_eq_true, iff_false]
        exact hxnot
    · rw [dlookup_derase_ne hxe]
      have hIH := h1 x T
      unfold tyEnts entComps at hIH
      by_cases hTin : T ∈ (entComps w e).map Prod.fst
      · have hex : ∃ s, dlookup T w.components = some s ∧ e ∈ s := by
          have hsome : (dlookup T (entComps w e)).isSome :=
            dlookup_isSome_of_mem_keys hTin
          have hty : e ∈ tyEnts w T := (h1 e T).mpr hsome
          unfold tyEnts at hty
          cases hl : dlookup T w.components with
          | none => rw [hl] at hty; simp at hty
          | some s => rw [hl] at hty; exact ⟨s, rfl, by simpa using hty⟩
        obtain ⟨s, hls, hes⟩ := hex
        rw [hls] at hIH
        simp only [Option.getD_some] at hIH
        by_cases hse : s.erase e = ∅
        · have hred : dlookup T comps' = none := by
            rw [hform T, if_pos hTin, hls]
            simp [hse]
          rw [hred]
          simp only [Option.getD_none, Finset.not_mem_empty, false_iff]
          intro hsome
          have hxs : x ∈ s := hIH.mpr hsome
          have hmm : x ∈ s.erase e := Finset.mem_erase.mpr ⟨hxe, hxs⟩
          rw [hse] at hmm
          exact Finset.not_mem_empty x hmm
        · have hred : dlookup T comps' = some (s.erase e) := by
            rw [hform T, if_pos hTin, hls]
            simp [hse]
          rw [hred]
          simp only [Option.getD_some, Finset.mem_erase]
          rw [← hIH]
          constructor
          · exact fun h => h.2
          · exact fun h => ⟨hxe, h⟩
      · have hred : dlookup T comps' = dlookup T w.components := by
          rw [hform T, if_neg hTin]
        rw [hred]
        exact hIH
  · intro T s hs
    have hs2 : dlookup T comps' = some s := hs
    clear hs
    rename' hs2 => hs
    rw [hform T] at hs
    by_cases hTin : T ∈ (entComps w e).map Prod.fst
    · rw [if_pos hTin] at hs
      cases hl : dlookup T w.components with
      | none =>
        rw [hl] at hs
        simp at hs
      | some s0 =>
        rw [hl] at hs
        by_cases hse : s0.erase e = ∅
        · simp [hse] at hs
        · simp [hse] at hs
          rw [← hs]
          exact hse
    · rw [if_neg hTin] at hs
      exact h2c T s hs
  · intro x inner' hx
    have hx2 : dlookup x (derase e w.entities) = some inner' := hx
    by_cases hxe : x = e
    · subst hxe
      rw [dlookup_derase_self hnde] at hx2
      cases hx2
    · rw [dlookup_derase_ne hxe] at hx2
      exact h2e x inner' hx2

theorem winv_create_entity {w : World} (hinv : WInv w) : WInv (create_entity w).1 :=
  hinv

theorem winv_clear_database (w : World) : WInv (clear_database w) := by
  refine ⟨⟨List.nodup_nil, List.nodup_nil, ?_⟩, ?_, ?_, ?_⟩
  · intro e inner h
    simp [dlookup] at h
  · intro e T
    simp [tyEnts, entComps, dlookup]
  · intro T s h
    simp [dlookup] at h
  · intro e inner h
    simp [dlookup] at h

theorem winv_init : WInv World.init :=
  winv_clear_database World.init

theorem step_winv {w w' : World} (hinv : WInv w) (h : Step w w') : WInv w' := by
  cases h with
  | create => exact winv_create_entity hinv
  | addC e c => exact winv_add_component hinv e c
  | delC e ct => exact winv_delete_component hinv e ct
  | delE e => exact winv_delete_entity hinv e
  | clear => exact winv_clear_database _

theorem reachable_winv {w : World} (h : Reachable w) : WInv w := by
  induction h with
  | init => exact winv_init
  | step hr hs ih => exact step_winv ih hs

/-- C4: Invariant I1 holds after every mutating operation (add_component,
delete_component, delete_entity, clear_database, create_entity), for
every reachable world state: an entity `e` is a member of
`type_entities[T]` if and only if `entity_components[e]` has an entry
for component type `T`. -/
theorem C4_invariant_I1_reachable {w : World} (h : Reachable w) : I1 w :=
  (reachable_winv h).2.1

theorem C4_witness :
    I1 (add_component (create_entity World.init).1 1 ⟨5, 0⟩) :=
  C4_invariant_I1_reachable
    (Reachable.step (Reachable.step Reachable.init (Step.create World.init))
      (Step.addC (create_entity World.init).1 1 ⟨5, 0⟩))

/-- C9: Invariant I2 holds after every mutating operation:
`type_entities` never maps a component type to an empty entity set, and
`entity_components` never maps an entity to an empty mapping — empty
containers are pruned immediately. -/
theorem C9_invariant_I2_reachable {w : World} (h : Reachable w) : I2 w :=
  (reachable_winv h).2.2

theorem C9_witness :
    I2 (delete_component (add_component World.init 2 ⟨3, 7⟩) 2 3) :=
  C9_invariant_I2_reachable
    (Reachable.step (Reachable.step Reachable.init (Step.addC World.init 2 ⟨3, 7⟩))
      (Step.delC (add_component World.init 2 ⟨3, 7⟩) 2 3))

/-- C10: clear_database empties both entity_components and type_entities,
resets the identifier counter so the next create_entity returns 1, and
leaves the processor list (membership and order) unchanged. -/
theorem C10_clear_database_resets (w : World) :
    (clear_database w).entities = [] ∧
    (clear_database w).components = [] ∧
    (clear_database w).next_entity_id = 0 ∧
    (create_entity (clear_database w)).2 = 1 ∧
    (clear_database w).processors = w.processors :=
  ⟨rfl, rfl, rfl, rfl, rfl⟩

/-- C5: evaluation of the code at the failing input: deleting entity 999,
which has no entry at all in entity_components, silently succeeds (no
error is signalled) and leaves the world unchanged — while the claim
(and the repository's own test, which expects a KeyError) says a
"not found" error must be signalled. -/
theorem C5_delete_entity_unknown_silent :
    delete_entity (add_component World.init 1 ⟨1, 0⟩) 999 =
      (add_component World.init 1 ⟨1, 0⟩, none) := by decide

/-- C7 counterexample: on a single World, create_entity returns 1, and
after clear_database it returns 1 again — an identifier already issued
earlier by that same World, refuting strict increase over the whole
lifetime when clear_database calls are included. -/
theorem C7_counterexample :
    (create_entity World.init).2 = 1 ∧
    (create_entity (clear_database (create_entity World.init).1)).2 = 1 :=
  ⟨rfl, rfl⟩

/-- A mutating operation other than clear_database (the query operations
issue no identifiers and do not touch the counter). -/
inductive OpNC where
  | createE : OpNC
  | addC (e : Nat) (c : Component) : OpNC
  | delC (e ct : Nat) : OpNC
  | delE (e : Nat) : OpNC

/-- Apply one non-clearing operation; the second result component is the
list of entity identifiers the operation returned to the caller. -/
def applyNC (w : World) : OpNC → World × List Nat
  | .createE => ((create_entity w).1, [(create_entity w).2])
  | .addC e c => (add_component w e c, [])
  | .delC e ct => (delete_component w e ct, [])
  | .delE e => ((delete_entity w e).1, [])

/-- Run a sequence of non-clearing operations, collecting every entity
identifier issued along the way. -/
def runNC (w : World) : List OpNC → World × List Nat
  | [] => (w, [])
  | op :: rest =>
    let r1 := applyNC w op
    let r2 := runNC r1.1 rest
    (r2.1, r1.2 ++ r2.2)

theorem delete_entity_next_id (w : World) (e : Nat) :
    (delete_entity w e).1.next_entity_id = w.next_entity_id := by
  unfold delete_entity
  cases h : (del_entity_loop e ((dlookup e w.entities).getD []) w.components).2 <;>
    simp [h]

theorem applyNC_counter_mono (w : World) (op : OpNC) :
    w.next_entity_id ≤ (applyNC w op).1.next_entity_id := by
  cases op with
  | createE => exact Nat.le_succ _
  | addC e c => exact Nat.le_refl _
  | delC e ct => exact Nat.le_refl _
  | delE e => rw [applyNC, delete_entity_next_id]

theorem applyNC_ids (w : World) (op : OpNC) :
    ∀ i ∈ (applyNC w op).2,
      w.next_entity_id < i ∧ i ≤ (applyNC w op).1.next_entity_id := by
  cases op with
  | createE =>
    intro i hi
    simp only [applyNC, List.mem_singleton] at hi
    subst hi
    exact ⟨Nat.lt_succ_self _, Nat.le_refl _⟩
  | addC e c => intro i hi; simp [applyNC] at hi
  | delC e ct => intro i hi; simp [applyNC] at hi
  | delE e => intro i hi; simp [applyNC] at hi

theorem applyNC_ids_pairwise (w : World) (op : OpNC) :
    List.Pairwise (· < ·) (applyNC w op).2 := by
  cases op with
  | createE => simp [applyNC]
  | addC e c => simp [applyNC]
  | delC e ct => simp [applyNC]
  | delE e => simp [applyNC]

theorem runNC_spec : ∀ (ops : List OpNC) (w : World),
    w.next_entity_id ≤ (runNC w ops).1.next_entity_id ∧
    List.Pairwise (· < ·) (runNC w ops).2 ∧
    ∀ i ∈ (runNC w ops).2,
      w.next_entity_id < i ∧ i ≤ (runNC w ops).1.next_entity_id := by
  intro ops
  induction ops with
  | nil =>
    intro w
    exact ⟨Nat.le_refl _, List.Pairwise.nil, by simp [runNC]⟩
  | cons op rest ih =>
    intro w
    have hrun : runNC w (op :: rest) =
        ((runNC (applyNC w op).1 rest).1,
          (applyNC w op).2 ++ (runNC (applyNC w op).1 rest).2) := rfl
    obtain ⟨ihc, ihpw, ihb⟩ := ih (applyNC w op).1
    have hc := applyNC_counter_mono w op
    have hids := applyNC_ids w op
    rw [hrun]
    refine ⟨Nat.le_trans hc ihc, ?_, ?_⟩
    · rw [List.pairwise_append]
      refine ⟨applyNC_ids_pairwise w op, ihpw, ?_⟩
      intro a ha b hb
      exact Nat.lt_of_le_of_lt ((hids a ha).2) ((ihb b hb).1)
    · intro i hi
      rcases List.mem_append.mp hi with h | h
      · exact ⟨(hids i h).1, Nat.le_trans (hids i h).2 ihc⟩
      · exact ⟨Nat.lt_of_le_of_lt hc (ihb i h).1, (ihb i h).2⟩

/-- C7 amended: within any sequence of mutating operations on one World
that contains no clear_database call, the identifiers returned by
create_entity are strictly increasing, all positive, and all strictly
above the counter value at the start — so none repeats an identifier
already issued on that World.  (clear_database resets the counter, so
identifiers do repeat across it, as the counterexample shows.) -/
theorem C7_amended_monotonic_ids (w : World) (ops : List OpNC) :
    List.Pairwise (· < ·) (runNC w ops).2 ∧
    ∀ i ∈ (runNC w ops).2, 0 < i ∧ w.next_entity_id < i := by
  obtain ⟨_, hpw, hb⟩ := runNC_spec ops w
  refine ⟨hpw, ?_⟩
  intro i hi
  exact ⟨Nat.lt_of_le_of_lt (Nat.zero_le _) (hb i hi).1, (hb i hi).1⟩

theorem C7_amended_witness :
    List.Pairwise (· < ·) (runNC World.init [OpNC.createE, OpNC.createE]).2 ∧
    (0 < 1 ∧ World.init.next_entity_id < 1) :=
  ⟨(C7_amended_monotonic_ids World.init [OpNC.createE, OpNC.createE]).1,
   (C7_amended_monotonic_ids World.init [OpNC.createE, OpNC.createE]).2 1 (by decide)⟩

/-- C6 counterexample: consuming get_components() with zero component
types raises an IndexError (from `component_types[0]`) instead of being
an empty, error-free result. -/
theorem C6_counterexample :
    get_components World.init [] = Except.error "IndexError" := rfl

theorem remove_loop_no_match (t : Nat) (l : List Proc) (i : Nat)
    (h : ∀ p ∈ l, p.pty ≠ t) : remove_loop t l i = l := by
  rw [remove_loop]
  split
  · rename_i hlt
    rw [if_neg (h _ (List.get_mem l i hlt))]
    exact remove_loop_no_match t l (i + 1) h
  · rfl
termination_by l.length - i
decreasing_by omega

/-- C6 amended: consuming get_components with zero component types
raises an IndexError rather than yielding an empty result, while
remove_processor with a processor type matching no registered processor
is indeed a no-op that raises no error. -/
theorem C6_amended (w : World) (t : Nat) :
    get_components w [] = Except.error "IndexError" ∧
    ((∀ p ∈ w.processors, p.pty ≠ t) → remove_processor w t = w) := by
  constructor
  · rfl
  · intro h
    unfold remove_processor
    rw [remove_loop_no_match t w.processors 0 h]

theorem C6_amended_witness :
    get_components (add_processor World.init ⟨1, 1, 0⟩ 0) [] = Except.error "IndexError" ∧
    remove_processor (add_processor World.init ⟨1, 1, 0⟩ 0) 2 =
      add_processor World.init ⟨1, 1, 0⟩ 0 :=
  ⟨(C6_amended (add_processor World.init ⟨1, 1, 0⟩ 0) 2).1,
   (C6_amended (add_processor World.init ⟨1, 1, 0⟩ 0) 2).2 (by decide)⟩

/-- C3 counterexample: with component type 1 attached to entity 1 and
type 2 entirely unknown, consuming get_components(1, 2) raises a
KeyError instead of yielding an empty, error-free sequence. -/
theorem C3_counterexample :
    get_components (add_component World.init 1 ⟨1, 0⟩) [1, 2] =
      Except.error "KeyError" := rfl

theorem gcs_inter_error (c0 : Nat) :
    ∀ (rest : List Nat) (comps : List (Nat × Finset Nat)) (s : Finset Nat) (T : Nat),
      T ∈ rest → T ≠ c0 → dlookup T comps = none →
      ∃ msg, gcs_inter c0 rest comps s = Except.error msg := by
  intro rest
  induction rest with
  | nil =>
    intro comps s T hT _ _
    simp at hT
  | cons ct rest' ih =>
    intro comps s T hT hTc0 hTnone
    cases hlct : dlookup ct comps with
    | none => exact ⟨"KeyError", by simp only [gcs_inter, hlct]⟩
    | some u =>
      have hTr : T ∈ rest' := by
        rcases List.mem_cons.mp hT with h | h
        · subst h
          rw [hTnone] at hlct
          cases hlct
        · exact h
      have hT1 : dlookup T (dinsert c0 (s ∩ u) comps) = none := by
        rw [dlookup_dinsert_ne _ hTc0]
        exact hTnone
      obtain ⟨msg, hmsg⟩ := ih (dinsert c0 (s ∩ u) comps) (s ∩ u) T hTr hTc0 hT1
      exact ⟨msg, by simp only [gcs_inter, hlct]; exact hmsg⟩

theorem get_components_cons_some {w : World} {c0 : Nat} {rest : List Nat}
    {s0 : Finset Nat} (hl : dlookup c0 w.components = some s0) :
    get_components w (c0 :: rest) =
      match gcs_inter c0 rest w.components s0 with
      | Except.error msg => Except.error msg
      | Except.ok (comps', s) =>
        match gcs_yield w.entities (c0 :: rest) (s.sort (· ≤ ·)) with
        | Except.error msg => Except.error msg
        | Except.ok res => Except.ok ({ w with components := comps' }, res) := by
  unfold get_components
  simp only [hl]

theorem get_components_cons_none {w : World} {c0 : Nat} {rest : List Nat}
    (hl : dlookup c0 w.components = none) :
    get_components w (c0 :: rest) = Except.error "KeyError" := by
  unfold get_components
  simp only [hl]

/-- C3 amended: get_component on a component type entirely unknown to
the world yields an empty sequence and raises no error, but
get_components over a type list containing an entirely unknown type
raises a KeyError when the generator is consumed. -/
theorem C3_amended (w : World) (ct : Nat) (ctys : List Nat) :
    (dlookup ct w.components = none → get_component w ct = Except.ok []) ∧
    ((∃ T ∈ ctys, dlookup T w.components = none) →
      ∃ msg, get_components w ctys = Except.error msg) := by
  constructor
  · intro h
    unfold get_component
    rw [h]
    simp [gc_loop]
  · intro h
    obtain ⟨T, hTmem, hTnone⟩ := h
    cases ctys with
    | nil => simp at hTmem
    | cons c0 rest =>
      cases hl : dlookup c0 w.components with
      | none => exact ⟨"KeyError", get_components_cons_none hl⟩
      | some s0 =>
        have hTc0 : T ≠ c0 := by
          intro he
          subst he
          rw [hTnone] at hl
          cases hl
        have hTr : T ∈ rest := by
          rcases List.mem_cons.mp hTmem with h' | h'
          · exact absurd h' hTc0
          · exact h'
        obtain ⟨msg, hmsg⟩ := gcs_inter_error c0 rest w.components s0 T hTr hTc0 hTnone
        refine ⟨msg, ?_⟩
        rw [get_components_cons_some hl, hmsg]

theorem C3_amended_witness :
    get_component (add_component World.init 1 ⟨1, 0⟩) 2 = Except.ok [] ∧
    ∃ msg, get_components (add_component World.init 1 ⟨1, 0⟩) [1, 2] =
      Except.error msg :=
  ⟨(C3_amended (add_component World.init 1 ⟨1, 0⟩) 2 [1, 2]).1 (by decide),
   (C3_amended (add_component World.init 1 ⟨1, 0⟩) 2 [1, 2]).2
     ⟨2, by decide, by decide⟩⟩

theorem gcs_inter_ok (c0 : Nat) :
    ∀ (rest : List Nat) (comps : List (Nat × Finset Nat)) (s : Finset Nat),
      NodupKeys comps → dlookup c0 comps = some s →
      (∀ T ∈ rest, (dlookup T comps).isSome) →
      ∃ comps' s', gcs_inter c0 rest comps s = Except.ok (comps', s') ∧
        NodupKeys comps' ∧ dlookup c0 comps' = some s' ∧
        (∀ T, T ≠ c0 → dlookup T comps' = dlookup T comps) ∧
        (∀ x, x ∈ s' ↔ x ∈ s ∧ ∀ T ∈ rest, x ∈ (dlookup T comps).getD ∅) := by
  intro rest
  induction rest with
  | nil =>
    intro comps s hnd hc0 _
    exact ⟨comps, s, rfl, hnd, hc0, fun T _ => rfl, by simp⟩
  | cons ct rest' ih =>
    intro comps s hnd hc0 hsome
    obtain ⟨t, ht⟩ := Option.isSome_iff_exists.mp (hsome ct (by simp))
    have hnd1 : NodupKeys (dinsert c0 (s ∩ t) comps) := nodup_dinsert _ _ hnd
    have hc01 : dlookup c0 (dinsert c0 (s ∩ t) comps) = some (s ∩ t) :=
      dlookup_dinsert_self _ _ _
    have hsome1 : ∀ T ∈ rest', (dlookup T (dinsert c0 (s ∩ t) comps)).isSome := by
      intro T hT
      by_cases hTc0 : T = c0
      · subst hTc0
        rw [hc01]
        rfl
      · rw [dlookup_dinsert_ne _ hTc0]
        exact hsome T (by simp [hT])
    obtain ⟨comps', s', heq, hnd', hc0', hpres, hmem⟩ :=
      ih (dinsert c0 (s ∩ t) comps) (s ∩ t) hnd1 hc01 hsome1
    refine ⟨comps', s', ?_, hnd', hc0', ?_, ?_⟩
    · simp only [gcs_inter, ht]
      exact heq
    · intro T hT
      rw [hpres T hT, dlookup_dinsert_ne _ hT]
    · intro x
      rw [hmem x]
      constructor
      · rintro ⟨hst, hrest⟩
        have hxs : x ∈ s := (Finset.mem_inter.mp hst).1
        have hxt : x ∈ t := (Finset.mem_inter.mp hst).2
        refine ⟨hxs, ?_⟩
        intro T hT
        rcases List.mem_cons.mp hT with h | h
        · subst h
          rw [ht]
          exact hxt
        · by_cases hTc0 : T = c0
          · subst hTc0
            rw [hc0]
            exact hxs
          · have hx' := hrest T h
            rw [dlookup_dinsert_ne _ hTc0] at hx'
            exact hx'
      · rintro ⟨hxs, hall⟩
        have hxt : x ∈ t := by
          have hx' := hall ct (by simp)
          rw [ht] at hx'
          exact hx'
        refine ⟨Finset.mem_inter.mpr ⟨hxs, hxt⟩, ?_⟩
        intro T hT
        by_cases hTc0 : T = c0
        · subst hTc0
          rw [hc01]
          exact Finset.mem_inter.mpr ⟨hxs, hxt⟩
        · rw [dlookup_dinsert_ne _ hTc0]
          exact hall T (by simp [hT])

theorem gcs_yield_ok (ents : List (Nat × List (Nat × Component))) (ctys : List Nat) :
    ∀ l : List Nat, (∀ e ∈ l, (dlookup e ents).isSome) →
      gcs_yield ents ctys l = Except.ok
        (l.map (fun e =>
          (e, ctys.filterMap (fun ct => dlookup ct ((dlookup e ents).getD []))))) := by
  intro l
  induction l with
  | nil => intro _; rfl
  | cons e rest ih =>
    intro h
    obtain ⟨inner, hinner⟩ := Option.isSome_iff_exists.mp (h e (by simp))
    have hr := ih (fun x hx => h x (by simp [hx]))
    simp only [gcs_yield, hinner, hr, List.map_cons]
    simp [hinner]

theorem filterMap_forall2 (inner : List (Nat × Component)) :
    ∀ ctys : List Nat, (∀ ct ∈ ctys, (dlookup ct inner).isSome) →
      List.Forall₂ (fun ct c => dlookup ct inner = some c) ctys
        (ctys.filterMap (fun ct => dlookup ct inner)) := by
  intro ctys
  induction ctys with
  | nil => intro _; simp
  | cons ct rest ih =>
    intro h
    obtain ⟨c, hc⟩ := Option.isSome_iff_exists.mp (h ct (by simp))
    simp only [List.filterMap_cons, hc]
    exact List.Forall₂.cons hc (ih (fun x hx => h x (by simp [hx])))

theorem component_for_entity_eq (w : World) (e ct : Nat) :
    component_for_entity w e ct = dlookup ct (entComps w e) := by
  unfold component_for_entity entComps
  cases h : dlookup e w.entities <;> simp [dlookup]

/-- C1: for a consistent world and a non-empty list of component types
all known to the world, consuming get_components(T1,...,Tn) yields
exactly the entities of the intersection
type_entities[T1] ∩ ... ∩ type_entities[Tn] — none outside it, none
missing, none twice — each paired with the list of its component
instances in the order of the requested types. -/
theorem C1_get_components_intersection {w : World} (hwf : WF w) (h1 : I1 w)
    {ctys : List Nat} (hne : ctys ≠ [])
    (hknown : ∀ T ∈ ctys, (dlookup T w.components).isSome) :
    ∃ w' res, get_components w ctys = Except.ok (w', res) ∧
      (∀ x, x ∈ res.map Prod.fst ↔ ∀ T ∈ ctys, x ∈ tyEnts w T) ∧
      (res.map Prod.fst).Nodup ∧
      ∀ p ∈ res, List.Forall₂
        (fun ct c => component_for_entity w p.1 ct = some c) ctys p.2 := by
  cases ctys with
  | nil => exact absurd rfl hne
  | cons c0 rest =>
    obtain ⟨s0, hs0⟩ := Option.isSome_iff_exists.mp (hknown c0 (by simp))
    obtain ⟨comps', s', heq_i, hnd', hc0', hpres, hmem⟩ :=
      gcs_inter_ok c0 rest w.components s0 hwf.1 hs0
        (fun T hT => hknown T (by simp [hT]))
    have hmem2 : ∀ x, x ∈ s' ↔ ∀ T ∈ c0 :: rest, x ∈ tyEnts w T := by
      intro x
      rw [hmem x]
      unfold tyEnts
      constructor
      · rintro ⟨hxs, hall⟩
        intro T hT
        rcases List.mem_cons.mp hT with h | h
        · subst h
          rw [hs0]
          exact hxs
        · exact hall T h
      · intro hall
        refine ⟨?_, fun T hT => hall T (by simp [hT])⟩
        have hx0 := hall c0 (by simp)
        rw [hs0] at hx0
        exact hx0
    have hents : ∀ e ∈ s'.sort (· ≤ ·), (dlookup e w.entities).isSome := by
      intro e he
      have hes' : e ∈ s' := (Finset.mem_sort _).mp he
      have hty : e ∈ tyEnts w c0 := (hmem2 e).mp hes' c0 (by simp)
      have hsome := (h1 e c0).mp hty
      unfold entComps at hsome
      cases hl : dlookup e w.entities with
      | none =>
        rw [hl] at hsome
        simp [dlookup] at hsome
      | some inner => rfl
    have heq_y : gcs_yield w.entities (c0 :: rest) (s'.sort (· ≤ ·)) =
        Except.ok ((s'.sort (· ≤ ·)).map (fun e =>
          (e, (c0 :: rest).filterMap (fun ct => dlookup ct (entComps w e))))) :=
      gcs_yield_ok w.entities (c0 :: rest) (s'.sort (· ≤ ·)) hents
    have hfst : (((s'.sort (· ≤ ·)).map (fun e =>
        (e, (c0 :: rest).filterMap (fun ct =>
          dlookup ct (entComps w e))))).map Prod.fst) = s'.sort (· ≤ ·) := by
      rw [List.map_map]
      exact List.map_id' _
    refine ⟨{ w with components := comps' },
      (s'.sort (· ≤ ·)).map (fun e =>
        (e, (c0 :: rest).filterMap (fun ct => dlookup ct (entComps w e)))),
      ?_, ?_, ?_, ?_⟩
    · rw [get_components_cons_some hs0]
      simp only [heq_i, heq_y]
    · intro x
      rw [hfst, Finset.mem_sort]
      exact hmem2 x
    · rw [hfst]
      exact Finset.sort_nodup _ _
    · intro p hp
      rw [List.mem_map] at hp
      obtain ⟨e, hel, hpe⟩ := hp
      subst hpe
      have hes' : e ∈ s' := (Finset.mem_sort _).mp hel
      have hall : ∀ ct ∈ c0 :: rest, (dlookup ct (entComps w e)).isSome := by
        intro ct hct
        exact (h1 e ct).mp ((hmem2 e).mp hes' ct hct)
      refine List.Forall₂.imp ?_ (filterMap_forall2 (entComps w e) (c0 :: rest) hall)
      intro ct c hcc
      rw [component_for_entity_eq]
      exact hcc

theorem C1_witness :
    ∃ w' res,
      get_components (add_component (add_component
        (add_component World.init 1 ⟨1, 10⟩) 1 ⟨2, 20⟩) 2 ⟨1, 30⟩) [1, 2] =
        Except.ok (w', res) ∧
      (∀ x, x ∈ res.map Prod.fst ↔ ∀ T ∈ [1, 2],
        x ∈ tyEnts (add_component (add_component
          (add_component World.init 1 ⟨1, 10⟩) 1 ⟨2, 20⟩) 2 ⟨1, 30⟩) T) ∧
      (res.map Prod.fst).Nodup ∧
      ∀ p ∈ res, List.Forall₂
        (fun ct c => component_for_entity (add_component (add_component
          (add_component World.init 1 ⟨1, 10⟩) 1 ⟨2, 20⟩) 2 ⟨1, 30⟩) p.1 ct = some c)
        [1, 2] p.2 := by
  have hinv := reachable_winv
    (Reachable.step (Reachable.step (Reachable.step Reachable.init
        (Step.addC World.init 1 ⟨1, 10⟩))
      (Step.addC (add_component World.init 1 ⟨1, 10⟩) 1 ⟨2, 20⟩))
      (Step.addC (add_component (add_component World.init 1 ⟨1, 10⟩) 1 ⟨2, 20⟩) 2 ⟨1, 30⟩))
  exact C1_get_components_intersection hinv.1 hinv.2.1 (by decide) (by decide)

/-- C2: consuming get_components(T1,...,Tn) with n ≥ 2 mutates the
stored state: `entities = self._components[T1]` aliases the stored set
and each `entities &= ...` shrinks it in place, so after the run the
entry of the first requested type holds exactly the intersection —
every entity lacking one of the other requested types has been removed
from type_entities[T1], although no mutating operation was invoked
(which can break invariant I1: the removed entities keep their
entity_components entries). -/
theorem C2_get_components_mutates {w : World} (hwf : WF w) (h1 : I1 w)
    {c0 : Nat} {rest : List Nat} (_hrest : rest ≠ [])
    (hknown : ∀ T ∈ c0 :: rest, (dlookup T w.components).isSome) :
    ∃ w' res, get_components w (c0 :: rest) = Except.ok (w', res) ∧
      w'.entities = w.entities ∧ w'.processors = w.processors ∧
      ∃ s', dlookup c0 w'.components = some s' ∧
        ∀ x, x ∈ s' ↔ ∀ T ∈ c0 :: rest, x ∈ tyEnts w T := by
  obtain ⟨s0, hs0⟩ := Option.isSome_iff_exists.mp (hknown c0 (by simp))
  obtain ⟨comps', s', heq_i, hnd', hc0', hpres, hmem⟩ :=
    gcs_inter_ok c0 rest w.components s0 hwf.1 hs0
      (fun T hT => hknown T (by simp [hT]))
  have hmem2 : ∀ x, x ∈ s' ↔ ∀ T ∈ c0 :: rest, x ∈ tyEnts w T := by
    intro x
    rw [hmem x]
    unfold tyEnts
    constructor
    · rintro ⟨hxs, hall⟩
      intro T hT
      rcases List.mem_cons.mp hT with h | h
      · subst h
        rw [hs0]
        exact hxs
      · exact hall T h
    · intro hall
      refine ⟨?_, fun T hT => hall T (by simp [hT])⟩
      have hx0 := hall c0 (by simp)
      rw [hs0] at hx0
      exact hx0
  have hents : ∀ e ∈ s'.sort (· ≤ ·), (dlookup e w.entities).isSome := by
    intro e he
    have hes' : e ∈ s' := (Finset.mem_sort _).mp he
    have hty : e ∈ tyEnts w c0 := (hmem2 e).mp hes' c0 (by simp)
    have hsome := (h1 e c0).mp hty
    unfold entComps at hsome
    cases hl : dlookup e w.entities with
    | none =>
      rw [hl] at hsome
      simp [dlookup] at hsome
    | some inner => rfl
  have heq_y : gcs_yield w.entities (c0 :: rest) (s'.sort (· ≤ ·)) =
      Except.ok ((s'.sort (· ≤ ·)).map (fun e =>
        (e, (c0 :: rest).filterMap (fun ct => dlookup ct (entComps w e))))) :=
    gcs_yield_ok w.entities (c0 :: rest) (s'.sort (· ≤ ·)) hents
  refine ⟨{ w with components := comps' },
    (s'.sort (· ≤ ·)).map (fun e =>
      (e, (c0 :: rest).filterMap (fun ct => dlookup ct (entComps w e)))),
    ?_, rfl, rfl, s', hc0', hmem2⟩
  rw [get_components_cons_some hs0]
  simp only [heq_i, heq_y]

theorem C2_witness :
    ∃ w' res,
      get_components (add_component (add_component
        (add_component World.init 3 ⟨1, 0⟩) 4 ⟨1, 0⟩) 3 ⟨2, 0⟩) [1, 2] =
        Except.ok (w', res) ∧
      w'.entities = (add_component (add_component
        (add_component World.init 3 ⟨1, 0⟩) 4 ⟨1, 0⟩) 3 ⟨2, 0⟩).entities ∧
      w'.processors = (add_component (add_component
        (add_component World.init 3 ⟨1, 0⟩) 4 ⟨1, 0⟩) 3 ⟨2, 0⟩).processors ∧
      ∃ s', dlookup 1 w'.components = some s' ∧
        ∀ x, x ∈ s' ↔ ∀ T ∈ [1, 2],
          x ∈ tyEnts (add_component (add_component
            (add_component World.init 3 ⟨1, 0⟩) 4 ⟨1, 0⟩) 3 ⟨2, 0⟩) T := by
  have hinv := reachable_winv
    (Reachable.step (Reachable.step (Reachable.step Reachable.init
        (Step.addC World.init 3 ⟨1, 0⟩))
      (Step.addC (add_component World.init 3 ⟨1, 0⟩) 4 ⟨1, 0⟩))
      (Step.addC (add_component (add_component World.init 3 ⟨1, 0⟩) 4 ⟨1, 0⟩) 3 ⟨2, 0⟩))
  exact C2_get_components_mutates hinv.1 hinv.2.1 (by decide) (by decide)

theorem insertDesc_perm (a : Proc) : ∀ l, (insertDesc a l).Perm (a :: l) := by
  intro l
  induction l with
  | nil => exact List.Perm.refl _
  | cons b rest ih =>
    by_cases h : b.priority < a.priority
    · simp only [insertDesc, if_pos h]
      exact List.Perm.refl _
    · simp only [insertDesc, if_neg h]
      exact (List.Perm.cons b ih).trans (List.Perm.swap a b rest)

theorem sorted_insertDesc {a : Proc} :
    ∀ {l}, List.Pairwise (fun u v => v.priority ≤ u.priority) l →
      List.Pairwise (fun u v => v.priority ≤ u.priority) (insertDesc a l) := by
  intro l
  induction l with
  | nil => intro _; simp [insertDesc]
  | cons b rest ih =>
    intro hp
    obtain ⟨hb, hrest⟩ := List.pairwise_cons.mp hp
    by_cases h : b.priority < a.priority
    · simp only [insertDesc, if_pos h]
      refine List.Pairwise.cons ?_ hp
      intro v hv
      rcases List.mem_cons.mp hv with h' | h'
      · subst h'
        exact le_of_lt h
      · exact le_of_lt (lt_of_le_of_lt (hb v h') h)
    · simp only [insertDesc, if_neg h]
      refine List.Pairwise.cons ?_ (ih hrest)
      intro v hv
      have hv' : v ∈ a :: rest := (insertDesc_perm a rest).mem_iff.mp hv
      rcases List.mem_cons.mp hv' with h' | h'
      · subst h'
        exact not_lt.mp h
      · exact hb v h'

theorem stableSortDesc_append_singleton (l : List Proc) (a : Proc) :
    stableSortDesc (l ++ [a]) = insertDesc a (stableSortDesc l) := by
  unfold stableSortDesc
  rw [List.foldl_append]
  rfl

theorem stableSortDesc_sorted :
    ∀ l, List.Pairwise (fun u v => v.priority ≤ u.priority) (stableSortDesc l) := by
  intro l
  induction l using List.reverseRecOn with
  | nil => exact List.Pairwise.nil
  | append_singleton l a ih =>
    rw [stableSortDesc_append_singleton]
    exact sorted_insertDesc ih

theorem stableSortDesc_perm : ∀ l, (stableSortDesc l).Perm l := by
  intro l
  induction l using List.reverseRecOn with
  | nil => exact List.Perm.refl _
  | append_singleton l a ih =>
    rw [stableSortDesc_append_singleton]
    exact ((insertDesc_perm a _).trans (ih.cons a)).trans
      (List.perm_append_singleton a l).symm

theorem insertDesc_of_all_ge {a : Proc} :
    ∀ {l}, (∀ b ∈ l, ¬ b.priority < a.priority) → insertDesc a l = l ++ [a] := by
  intro l
  induction l with
  | nil => intro _; rfl
  | cons b rest ih =>
    intro h
    simp only [insertDesc, if_neg (h b (by simp))]
    rw [ih (fun x hx => h x (by simp [hx]))]
    rfl

theorem stableSortDesc_of_sorted :
    ∀ {l}, List.Pairwise (fun u v => v.priority ≤ u.priority) l →
      stableSortDesc l = l := by
  intro l
  induction l using List.reverseRecOn with
  | nil => intro _; rfl
  | append_singleton l a ih =>
    intro hp
    rw [stableSortDesc_append_singleton,
      ih (hp.sublist (List.sublist_append_left l [a]))]
    apply insertDesc_of_all_ge
    intro b hb
    have hba : a.priority ≤ b.priority :=
      (List.pairwise_append.mp hp).2.2 b hb a (by simp)
    exact not_lt.mpr hba

theorem mem_insertDesc_self (a : Proc) : ∀ l, a ∈ insertDesc a l := by
  intro l
  induction l with
  | nil => simp [insertDesc]
  | cons b rest ih =>
    by_cases h : b.priority < a.priority <;> simp [insertDesc, h, ih]

theorem sublist_insertDesc (a : Proc) :
    ∀ l : List Proc, List.Sublist l (insertDesc a l) := by
  intro l
  induction l with
  | nil => simp [insertDesc]
  | cons b rest ih =>
    by_cases h : b.priority < a.priority
    · simp only [insertDesc, if_pos h]
      exact List.sublist_cons_self _ _
    · simp only [insertDesc, if_neg h]
      exact ih.cons₂ b

theorem pair_sublist_insertDesc {a x : Proc} :
    ∀ {m}, List.Pairwise (fun u v => v.priority ≤ u.priority) m → x ∈ m →
      a.priority ≤ x.priority → [x, a].Sublist (insertDesc a m) := by
  intro m
  induction m with
  | nil =>
    intro _ hx
    cases hx
  | cons b rest ih =>
    intro hp hx hax
    obtain ⟨hb, hrest⟩ := List.pairwise_cons.mp hp
    by_cases h : b.priority < a.priority
    · exfalso
      rcases List.mem_cons.mp hx with h' | h'
      · subst h'
        exact absurd hax (not_le.mpr h)
      · exact absurd hax (not_le.mpr (lt_of_le_of_lt (hb x h') h))
    · simp only [insertDesc, if_neg h]
      rcases List.mem_cons.mp hx with h' | h'
      · subst h'
        exact (List.singleton_sublist.mpr (mem_insertDesc_self a rest)).cons₂ x
      · exact (ih hrest h' hax).cons b

theorem stableSortDesc_stable {x y : Proc} (hxy : x.priority = y.priority) :
    ∀ {l}, [x, y].Sublist l → [x, y].Sublist (stableSortDesc l) := by
  intro l
  induction l using List.reverseRecOn with
  | nil =>
    intro h
    simp at h
  | append_singleton l a ih =>
    intro h
    rw [stableSortDesc_append_singleton]
    rcases List.sublist_append_iff.mp h with ⟨s, t, hst, hs, ht⟩
    rcases List.sublist_singleton.mp ht with ht' | ht'
    · subst ht'
      rw [List.append_nil] at hst
      subst hst
      exact (ih hs).trans (sublist_insertDesc a _)
    · subst ht'
      have hs_eq : s = [x] ∧ y = a := by
        cases s with
        | nil => simp at hst
        | cons u s' =>
          cases s' with
          | nil =>
            simp only [List.cons_append, List.nil_append, List.cons.injEq] at hst
            exact ⟨by rw [hst.1], hst.2.1⟩
          | cons v s'' => simp at hst
      obtain ⟨hs1, hya⟩ := hs_eq
      subst hs1
      subst hya
      have hxm : x ∈ stableSortDesc l :=
        (stableSortDesc_perm l).mem_iff.mpr (List.singleton_sublist.mp hs)
      exact pair_sublist_insertDesc (stableSortDesc_sorted l) hxm (le_of_eq hxy.symm)

/-- Fold a sequence of add_processor calls over a fresh World (each
instance is registered with its own priority value). -/
def applyAdds (adds : List Proc) : World :=
  adds.foldl (fun w p => add_processor w p p.priority) World.init

theorem applyAdds_processors :
    ∀ adds, (applyAdds adds).processors = stableSortDesc adds := by
  intro adds
  induction adds using List.reverseRecOn with
  | nil => rfl
  | append_singleton l a ih =>
    have hfold : applyAdds (l ++ [a]) = add_processor (applyAdds l) a a.priority := by
      unfold applyAdds
      rw [List.foldl_append]
      rfl
    rw [hfold]
    show stableSortDesc ((applyAdds l).processors ++ [{ a with priority := a.priority }])
      = stableSortDesc (l ++ [a])
    have ha : ({ a with priority := a.priority } : Proc) = a := rfl
    rw [ha, ih, stableSortDesc_append_singleton,
      stableSortDesc_of_sorted (stableSortDesc_sorted l),
      ← stableSortDesc_append_singleton]

/-- C8: after any sequence of add_processor calls on a fresh World, the
processor list is sorted by descending priority, contains each added
processor exactly once (it is a permutation of the additions), keeps
equal-priority processors in their insertion order (stability, stated
for ordered pairs of the addition sequence), and process() invokes the
callbacks exactly in that list order. -/
theorem C8_add_processor_sorted_stable (adds : List Proc) :
    List.Pairwise (fun a b => b.priority ≤ a.priority) (applyAdds adds).processors ∧
    ((applyAdds adds).processors).Perm adds ∧
    (∀ x y : Proc, x.priority = y.priority → [x, y].Sublist adds →
      [x, y].Sublist (applyAdds adds).processors) ∧
    process (applyAdds adds) = ((applyAdds adds).processors).map Proc.pid := by
  rw [applyAdds_processors]
  refine ⟨stableSortDesc_sorted adds, stableSortDesc_perm adds, ?_, ?_⟩
  · intro x y hxy hsub
    exact stableSortDesc_stable hxy hsub
  · rw [← applyAdds_processors adds]
    rfl

theorem C8_witness :
    [(⟨1, 1, 5⟩ : Proc), ⟨2, 2, 5⟩].Sublist
      (applyAdds [⟨1, 1, 5⟩, ⟨2, 2, 5⟩]).processors ∧
    process (applyAdds [⟨1, 1, 5⟩, ⟨2, 2, 5⟩]) = [1, 2] :=
  ⟨(C8_add_processor_sorted_stable [⟨1, 1, 5⟩, ⟨2, 2, 5⟩]).2.2.1
      ⟨1, 1, 5⟩ ⟨2, 2, 5⟩ rfl (by decide),
   by decide⟩
